import Mathlib

/-!
Verification model of the cudamapper `Index` component of
ClaraGenomicsAnalysis.

The repository ships only the abstract interface
`cudamapper/include/cudamapper/index.hpp`; the concrete Sketcher,
Canonicalizer and IndexBuilder implementations are not part of the sources
available here.  The definitions below therefore embed the interface
faithfully and model the missing construction pipeline from the
specification (sections 3, 4.1-4.4, 6 and 7): 2-bit base packing, canonical
(k,w)-minimizer sketching with select-all tie-breaking, accumulation of the
three global parallel arrays, the global stable sort by representation and
the derivation of the per-read / all-reads `ArrayBlock`s.
-/

namespace ClaraGenomics

/-- A DNA nucleotide, the alphabet underlying the 2-bits-per-base packing. -/
inductive Base : Type
  | A
  | C
  | G
  | T
deriving DecidableEq

/-- Modelled from the spec: the 2-bit code of one base used by the
forward packing ("fixed-width unsigned integer, 2 bits per base"). -/
def baseCode : Base → Nat
  | .A => 0
  | .C => 1
  | .G => 2
  | .T => 3

/-- Watson-Crick complement of a base. -/
def complementBase : Base → Base
  | .A => .T
  | .C => .G
  | .G => .C
  | .T => .A

/-- Modelled from the spec: forward 2-bits-per-base packing of a k-mer into
an unsigned integer (most significant base first). -/
def encode : List Base → Nat
  | [] => 0
  | b :: rest => baseCode b * 4 ^ rest.length + encode rest

/-- Reverse complement of a sequence. -/
def reverseComplement (s : List Base) : List Base :=
  (s.map complementBase).reverse

/-- Direction in which a sketch element was read
(`SketchElement::DirectionOfRepresentation`). -/
inductive DirectionOfRepresentation : Type
  | Forward
  | ReverseComplement
deriving DecidableEq

/-- Result of canonicalizing one k-mer: its strand-independent
representation and the winning direction. -/
structure CanonicalKmer where
  representation_ : Nat
  direction_ : DirectionOfRepresentation
deriving DecidableEq

/-- Modelled from the spec (4.2 Canonicalizer, missing from the sources):
representation = min(forward, reverse_complement); direction = Forward if
forward ≤ reverse_complement else ReverseComplement. -/
def canonicalize (kmer : List Base) : CanonicalKmer :=
  if encode kmer ≤ encode (reverseComplement kmer) then
    { representation_ := encode kmer, direction_ := .Forward }
  else
    { representation_ := encode (reverseComplement kmer),
      direction_ := .ReverseComplement }

/-- The k-mer starting at position `i` of read `s`. -/
def kmerAt (s : List Base) (k i : Nat) : List Base :=
  (s.drop i).take k

/-- Number of k-mer start positions of a read (0 when the read is shorter
than `k`). -/
def numKmers (s : List Base) (k : Nat) : Nat :=
  s.length + 1 - k

/-- Canonical representation of the k-mer starting at position `i`. -/
def repAt (s : List Base) (k i : Nat) : Nat :=
  (canonicalize (kmerAt s k i)).representation_

/-- Modelled from the spec (4.1 Sketcher, missing from the sources): number
of sliding windows of `w` consecutive k-mer start positions; a read with at
least one k-mer but fewer than `w` start positions has exactly one window. -/
def numWindows (s : List Base) (k w : Nat) : Nat :=
  if numKmers s k = 0 then 0 else max 1 (numKmers s k + 1 - w)

/-- The k-mer start positions covered by window `j`. -/
def windowPositions (s : List Base) (k w j : Nat) : List Nat :=
  List.range' j (min w (numKmers s k - j))

/-- Modelled from the spec: the positions of window `j` achieving the window
minimum canonical representation — all of them are selected on a tie. -/
def windowWinners (s : List Base) (k w j : Nat) : List Nat :=
  (windowPositions s k w j).filter
    (fun p => (windowPositions s k w j).all
      (fun q => decide (repAt s k p ≤ repAt s k q)))

/-- Modelled from the spec: positions selected as minimizers of some window,
each distinct position kept once even when it wins several windows. -/
def sketchPositions (s : List Base) (k w : Nat) : List Nat :=
  ((List.range (numWindows s k w)).flatMap (windowWinners s k w)).dedup

/-- One selected minimizer occurrence (`SketchElement`). -/
structure SketchElement where
  representation_ : Nat
  position_in_read_ : Nat
  read_id_ : Nat
  direction_ : DirectionOfRepresentation
deriving DecidableEq

/-- The sketch element of read `i` for the k-mer starting at position `p`. -/
def mkSketchElement (i : Nat) (s : List Base) (k p : Nat) : SketchElement :=
  { representation_ := (canonicalize (kmerAt s k p)).representation_
    position_in_read_ := p
    read_id_ := i
    direction_ := (canonicalize (kmerAt s k p)).direction_ }

/-- Modelled from the spec (4.1 Sketcher): the sketch elements of read `i`
with sequence `s` under parameters `(k, w)`. -/
def sketchRead (i : Nat) (s : List Base) (k w : Nat) : List SketchElement :=
  (sketchPositions s k w).map (mkSketchElement i s k)

/-- `ArrayBlock`: a {first_element offset, count} slice descriptor into the
global parallel arrays. -/
structure ArrayBlock where
  first_element_ : Nat
  block_size_ : Nat
deriving DecidableEq

/-- `Index::RepresentationToSketchElements` from `index.hpp`: a
representation, the block of sketch elements with that representation in one
read, and the block with that representation in all reads. -/
structure RepresentationToSketchElements where
  representation_ : Nat
  sketch_elements_for_representation_and_read_id_ : ArrayBlock
  sketch_elements_for_representation_and_all_read_ids_ : ArrayBlock
deriving DecidableEq

/-- One read supplied by a sequence source: name and base sequence. -/
structure ReadInput where
  name : String
  seq : List Base
deriving DecidableEq

/-- The `Index` interface of `index.hpp` as a record of its accessors:
three global parallel arrays, read metadata tables, representation bounds,
the nested per-read lookup and the batch-continuation signal. -/
structure Index where
  positions_in_reads : List Nat
  read_ids : List Nat
  directions_of_reads : List DirectionOfRepresentation
  number_of_reads : Nat
  read_id_to_read_name : List String
  read_id_to_read_length : List Nat
  minimum_representation : Nat
  maximum_representation : Nat
  read_id_and_representation_to_sketch_elements :
    List (List RepresentationToSketchElements)
  reached_end_of_input : Bool

/-- Modelled from the spec: width in bits of `representation_t`
(a 64-bit unsigned integer). -/
def representation_bits : Nat := 64

/-- `Index::maximum_kmer_size()` from `index.hpp`: the size of the
representation in bits divided by two. -/
def maximum_kmer_size : Nat := representation_bits / 2

/-- Modelled from the spec: sentinel minimum-representation bound reported
by an empty index (the fold identity of `min` on 64-bit values). -/
def sentinel_minimum_representation : Nat := 2 ^ representation_bits - 1

/-- Modelled from the spec: sentinel maximum-representation bound reported
by an empty index. -/
def sentinel_maximum_representation : Nat := 0

/-- Modelled from the spec (4.3 step 1): the reads selected by the
per-source `[start, end)` ranges, in pull order; read ids are their
positions in this list. -/
def selectedReads (sources : List (List ReadInput))
    (ranges : List (Nat × Nat)) : List ReadInput :=
  (sources.zip ranges).flatMap (fun p => (p.1.drop p.2.1).take (p.2.2 - p.2.1))

/-- Modelled from the spec (4.3 step 2): the sketch elements of every
selected read, indexed by the read's dense read id. -/
def perReadSketches (sources : List (List ReadInput)) (k w : Nat)
    (ranges : List (Nat × Nat)) : List (List SketchElement) :=
  (selectedReads sources ranges).enum.map (fun p => sketchRead p.1 p.2.seq k w)

/-- All sketch elements of the build, read-major, before the global sort. -/
def indexElements (sources : List (List ReadInput)) (k w : Nat)
    (ranges : List (Nat × Nat)) : List SketchElement :=
  (perReadSketches sources k w ranges).flatten

/-- The representations of all sketch elements of the build. -/
def indexRepresentations (sources : List (List ReadInput)) (k w : Nat)
    (ranges : List (Nat × Nat)) : List Nat :=
  (indexElements sources k w ranges).map (·.representation_)

/-- The distinct representations of a list, sorted ascending. -/
def sortedRepList (reps : List Nat) : List Nat :=
  List.insertionSort (· ≤ ·) reps.dedup

/-- Modelled from the spec (4.3 step 4): the global stable sort of all
sketch elements by representation, ties broken by original read/position
order — realised as the concatenation, over the distinct representations in
ascending order, of the read-major runs of elements with that
representation. -/
def indexSortedElements (sources : List (List ReadInput)) (k w : Nat)
    (ranges : List (Nat × Nat)) : List SketchElement :=
  (sortedRepList (indexRepresentations sources k w ranges)).flatMap
    (fun r => (indexElements sources k w ranges).filter
      (fun e => decide (e.representation_ = r)))

/-- The "all reads" block of representation `r` inside the globally sorted
array `L`: it starts after every element of smaller representation and
covers every element of representation `r`. -/
def allReadsBlock (L : List SketchElement) (r : Nat) : ArrayBlock :=
  { first_element_ := L.countP (fun e => decide (e.representation_ < r))
    block_size_ := L.countP (fun e => decide (e.representation_ = r)) }

/-- The block of representation `r` restricted to read `i` inside the
globally sorted array `L`; `l` is read `i`'s own sketch-element list. -/
def perReadBlock (L : List SketchElement) (l : List SketchElement)
    (i r : Nat) : ArrayBlock :=
  { first_element_ := L.countP (fun e =>
      decide (e.representation_ < r) ||
        (decide (e.representation_ = r) && decide (e.read_id_ < i)))
    block_size_ := l.countP (fun e => decide (e.representation_ = r)) }

/-- Modelled from the spec (4.3 step 5): the lookup entries of read `i`,
one per distinct representation of the read, sorted by representation
ascending, each holding the per-read block and the shared all-reads
block. -/
def readLookup (L : List SketchElement) (i : Nat)
    (l : List SketchElement) : List RepresentationToSketchElements :=
  (sortedRepList (l.map (·.representation_))).map
    (fun r =>
      { representation_ := r
        sketch_elements_for_representation_and_read_id_ := perReadBlock L l i r
        sketch_elements_for_representation_and_all_read_ids_ :=
          allReadsBlock L r })

/-- The nested per-read-then-by-representation lookup of the index. -/
def indexLookup (sources : List (List ReadInput)) (k w : Nat)
    (ranges : List (Nat × Nat)) : List (List RepresentationToSketchElements) :=
  (perReadSketches sources k w ranges).enum.map
    (fun p => readLookup (indexSortedElements sources k w ranges) p.1 p.2)

/-- Modelled from the spec: `reached_end_of_input()` — whether every source
was consumed to its end by its range, leaving no unconsumed reads. -/
def reachedEnd (sources : List (List ReadInput))
    (ranges : List (Nat × Nat)) : Bool :=
  (sources.zip ranges).all (fun p => decide (p.1.length ≤ p.2.2))

/-- Modelled from the spec (4.3 IndexBuilder, missing from the sources):
assemble the immutable `Index` over the selected reads. -/
def buildIndex (sources : List (List ReadInput)) (k w : Nat)
    (ranges : List (Nat × Nat)) : Index :=
  { positions_in_reads :=
      (indexSortedElements sources k w ranges).map (·.position_in_read_)
    read_ids := (indexSortedElements sources k w ranges).map (·.read_id_)
    directions_of_reads :=
      (indexSortedElements sources k w ranges).map (·.direction_)
    number_of_reads := (selectedReads sources ranges).length
    read_id_to_read_name := (selectedReads sources ranges).map (·.name)
    read_id_to_read_length := (selectedReads sources ranges).map (·.seq.length)
    minimum_representation :=
      (sortedRepList (indexRepresentations sources k w ranges)).headD
        sentinel_minimum_representation
    maximum_representation :=
      (sortedRepList (indexRepresentations sources k w ranges)).getLastD
        sentinel_maximum_representation
    read_id_and_representation_to_sketch_elements :=
      indexLookup sources k w ranges
    reached_end_of_input := reachedEnd sources ranges }

/-- Error taxonomy of construction (spec section 7): bad configuration is
rejected synchronously, before any work. -/
inductive IndexError : Type
  | invalid_configuration
deriving DecidableEq

/-- Modelled from the spec: a per-source `[start, end)` range is malformed
or out of bounds, or the range vector does not match the sources vector. -/
def rangeOutOfBounds (sources : List (List ReadInput))
    (ranges : List (Nat × Nat)) : Bool :=
  decide (ranges.length ≠ sources.length) ||
    (sources.zip ranges).any
      (fun p => decide (p.2.2 < p.2.1) || decide (p.1.length < p.2.2))

/-- `Index::create_index` from `index.hpp`, with the validation modelled
from the spec (section 6): kmer_size ∈ [1, maximum_kmer_size()],
window_size ≥ 1, ranges in bounds; otherwise fail with
invalid-configuration and produce no index. -/
def create_index (sources : List (List ReadInput))
    (kmer_size window_size : Nat) (ranges : List (Nat × Nat)) :
    Except IndexError Index :=
  if kmer_size < 1 ∨ maximum_kmer_size < kmer_size ∨ window_size < 1 ∨
      rangeOutOfBounds sources ranges = true then
    .error .invalid_configuration
  else
    .ok (buildIndex sources kmer_size window_size ranges)

/-- The zero-argument `Index::create_index()` from `index.hpp`: an empty,
structurally valid index with sentinel representation bounds. -/
def create_index_empty : Index :=
  { positions_in_reads := []
    read_ids := []
    directions_of_reads := []
    number_of_reads := 0
    read_id_to_read_name := []
    read_id_to_read_length := []
    minimum_representation := sentinel_minimum_representation
    maximum_representation := sentinel_maximum_representation
    read_id_and_representation_to_sketch_elements := []
    reached_end_of_input := true }

/-! ### Canonicalizer properties -/

theorem complementBase_involution (b : Base) :
    complementBase (complementBase b) = b := by
  cases b <;> rfl

theorem reverseComplement_involution (s : List Base) :
    reverseComplement (reverseComplement s) = s := by
  simp only [reverseComplement, List.map_reverse, List.reverse_reverse,
    List.map_map]
  have h : ∀ b ∈ s, (complementBase ∘ complementBase) b = id b := by
    intro b _
    simp [Function.comp, complementBase_involution]
  rw [List.map_congr_left h, List.map_id]

theorem reverseComplement_length (s : List Base) :
    (reverseComplement s).length = s.length := by
  simp [reverseComplement]

theorem encode_lt (l : List Base) : encode l < 4 ^ l.length := by
  induction l with
  | nil => simp [encode]
  | cons b rest ih =>
    have hb : baseCode b ≤ 3 := by cases b <;> simp [baseCode]
    have hmul : baseCode b * 4 ^ rest.length ≤ 3 * 4 ^ rest.length :=
      Nat.mul_le_mul_right _ hb
    simp only [encode, List.length_cons, pow_succ]
    omega

theorem encode_injOn (l1 l2 : List Base) (hlen : l1.length = l2.length)
    (henc : encode l1 = encode l2) : l1 = l2 := by
  induction l1 generalizing l2 with
  | nil => cases l2 with
    | nil => rfl
    | cons b t => simp at hlen
  | cons b1 t1 ih =>
    cases l2 with
    | nil => simp at hlen
    | cons b2 t2 =>
      have hlen' : t1.length = t2.length := by simpa using hlen
      have he1 := encode_lt t1
      have he2 := encode_lt t2
      have henc' : baseCode b1 * 4 ^ t1.length + encode t1
          = baseCode b2 * 4 ^ t1.length + encode t2 := by
        simpa [encode, hlen'] using henc
      have hpos : 0 < 4 ^ t1.length := Nat.pos_pow_of_pos _ (by norm_num)
      have hd1 : (4 ^ t1.length * baseCode b1 + encode t1) / 4 ^ t1.length
          = baseCode b1 := by
        rw [Nat.mul_add_div hpos, Nat.div_eq_of_lt he1, Nat.add_zero]
      have hd2 : (4 ^ t1.length * baseCode b2 + encode t2) / 4 ^ t1.length
          = baseCode b2 := by
        rw [Nat.mul_add_div hpos, Nat.div_eq_of_lt (hlen' ▸ he2), Nat.add_zero]
      have hbc : baseCode b1 = baseCode b2 := by
        rw [← hd1, ← hd2]
        rw [Nat.mul_comm (4 ^ t1.length) (baseCode b1),
          Nat.mul_comm (4 ^ t1.length) (baseCode b2), henc']
      have hb : b1 = b2 := by
        revert hbc
        cases b1 <;> cases b2 <;> simp [baseCode]
      subst hb
      have ht : encode t1 = encode t2 := by omega
      rw [ih t2 hlen' ht]

/-- C2: the canonicalizer returns representation = min(forward,
reverse-complement encoding) with direction Forward iff forward ≤
reverse-complement; a k-mer and its reverse complement canonicalize to the
same representation, their directions differ unless the k-mer is
palindromic, and a palindromic k-mer gets direction Forward. -/
theorem canonicalizer_canonical_spec (kmer : List Base) :
    (canonicalize kmer).representation_
        = min (encode kmer) (encode (reverseComplement kmer))
    ∧ ((canonicalize kmer).direction_ = DirectionOfRepresentation.Forward
        ↔ encode kmer ≤ encode (reverseComplement kmer))
    ∧ (canonicalize (reverseComplement kmer)).representation_
        = (canonicalize kmer).representation_
    ∧ (reverseComplement kmer ≠ kmer →
        (canonicalize (reverseComplement kmer)).direction_
          ≠ (canonicalize kmer).direction_)
    ∧ (reverseComplement kmer = kmer →
        (canonicalize kmer).direction_ = DirectionOfRepresentation.Forward) := by
  have hrr : encode (reverseComplement (reverseComplement kmer)) = encode kmer := by
    rw [reverseComplement_involution]
  refine ⟨?_, ?_, ?_, ?_, ?_⟩
  · by_cases h : encode kmer ≤ encode (reverseComplement kmer)
    · simp [canonicalize, h, min_eq_left h]
    · simp [canonicalize, h, min_eq_right (le_of_not_le h)]
  · by_cases h : encode kmer ≤ encode (reverseComplement kmer) <;>
      simp [canonicalize, h]
  · by_cases h1 : encode kmer ≤ encode (reverseComplement kmer) <;>
      by_cases h2 : encode (reverseComplement kmer) ≤ encode kmer
    · simp [canonicalize, h1, h2, hrr, le_antisymm h2 h1]
    · simp [canonicalize, h1, h2, hrr]
    · simp [canonicalize, h1, h2, hrr]
    · exact absurd (le_total (encode kmer) (encode (reverseComplement kmer)))
        (by simp [h1, h2])
  · intro hne
    have hfr : encode kmer ≠ encode (reverseComplement kmer) := by
      intro he
      exact hne (encode_injOn (reverseComplement kmer) kmer
        (reverseComplement_length kmer) he.symm)
    by_cases h : encode kmer ≤ encode (reverseComplement kmer)
    · have h2 : ¬ encode (reverseComplement kmer) ≤ encode kmer := by
        intro hle
        exact hfr (le_antisymm h hle)
      simp [canonicalize, h, h2, hrr]
    · simp [canonicalize, h, hrr, le_of_not_le h]
  · intro hpal
    simp [canonicalize, hpal]

/-- Concrete instance of `canonicalizer_canonical_spec` at the
non-palindromic k-mer AC. -/
theorem canonicalizer_canonical_spec_witness :
    (canonicalize (reverseComplement [Base.A, Base.C])).direction_
      ≠ (canonicalize [Base.A, Base.C]).direction_
    ∧ (canonicalize [Base.A, Base.C]).representation_
        = min (encode [Base.A, Base.C])
            (encode (reverseComplement [Base.A, Base.C])) :=
  ⟨(canonicalizer_canonical_spec [Base.A, Base.C]).2.2.2.1 (by decide),
   (canonicalizer_canonical_spec [Base.A, Base.C]).1⟩

/-! ### Sketcher properties -/

theorem list_exists_min {α : Type} (f : α → Nat) (l : List α) (h : l ≠ []) :
    ∃ p ∈ l, ∀ q ∈ l, f p ≤ f q := by
  induction l with
  | nil => exact absurd rfl h
  | cons a t ih =>
    cases t with
    | nil =>
      refine ⟨a, by simp, ?_⟩
      intro q hq
      rcases List.mem_cons.mp hq with rfl | hq'
      · exact le_refl _
      · exact absurd hq' (List.not_mem_nil q)
    | cons b t' =>
      obtain ⟨p, hp, hmin⟩ := ih (by simp)
      by_cases hcmp : f a ≤ f p
      · refine ⟨a, by simp, ?_⟩
        intro q hq
        rcases List.mem_cons.mp hq with rfl | hq'
        · exact le_refl _
        · exact le_trans hcmp (hmin q hq')
      · refine ⟨p, List.mem_cons_of_mem _ hp, ?_⟩
        intro q hq
        rcases List.mem_cons.mp hq with rfl | hq'
        · exact le_of_not_le hcmp
        · exact hmin q hq'

theorem winner_mem_sketchRead (i : Nat) (s : List Base) (k w j p : Nat)
    (hj : j < numWindows s k w) (hp : p ∈ windowPositions s k w j)
    (hmin : ∀ q ∈ windowPositions s k w j, repAt s k p ≤ repAt s k q) :
    mkSketchElement i s k p ∈ sketchRead i s k w := by
  have hwin : p ∈ windowWinners s k w j := by
    rw [windowWinners, List.mem_filter]
    refine ⟨hp, ?_⟩
    rw [List.all_eq_true]
    intro q hq
    exact decide_eq_true (hmin q hq)
  have hdedup : p ∈ sketchPositions s k w := by
    rw [sketchPositions, List.mem_dedup, List.mem_flatMap]
    exact ⟨j, List.mem_range.mpr hj, hwin⟩
  exact List.mem_map.mpr ⟨p, hdedup, rfl⟩

/-- C3: every position of a window achieving the window minimum canonical
representation is selected by the Sketcher (all tied positions are), and
each distinct (representation, position) pair appears at most once in the
read's sketch even when it wins several overlapping windows. -/
theorem sketcher_tie_selection (i : Nat) (s : List Base) (k w j p : Nat)
    (hj : j < numWindows s k w) (hp : p ∈ windowPositions s k w j)
    (hmin : ∀ q ∈ windowPositions s k w j, repAt s k p ≤ repAt s k q) :
    mkSketchElement i s k p ∈ sketchRead i s k w
    ∧ ((sketchRead i s k w).map
        (fun e => (e.representation_, e.position_in_read_))).Nodup := by
  refine ⟨winner_mem_sketchRead i s k w j p hj hp hmin, ?_⟩
  rw [sketchRead, List.map_map]
  have hinj : Function.Injective
      ((fun e : SketchElement => (e.representation_, e.position_in_read_))
        ∘ mkSketchElement i s k) := by
    intro a b hab
    have hsnd := congrArg Prod.snd hab
    simpa [mkSketchElement] using hsnd
  exact List.Nodup.map hinj (List.nodup_dedup _)

/-- Concrete instance of `sketcher_tie_selection`: in read AA with k = 1 and
w = 2 both positions tie at the minimum and position 0 is selected. -/
theorem sketcher_tie_selection_witness :
    mkSketchElement 0 [Base.A, Base.A] 1 0 ∈ sketchRead 0 [Base.A, Base.A] 1 2
    ∧ ((sketchRead 0 [Base.A, Base.A] 1 2).map
        (fun e => (e.representation_, e.position_in_read_))).Nodup :=
  sketcher_tie_selection 0 [Base.A, Base.A] 1 2 0 0 (by decide) (by decide)
    (by decide)

/-- C4: a read shorter than k yields zero sketch elements; a read whose
length lies in [k, k+w-1) has exactly one window and yields at least one
sketch element. -/
theorem sketcher_edge_cases (i : Nat) (s : List Base) (k w : Nat)
    (hk : 1 ≤ k) (hw : 1 ≤ w) :
    (s.length < k → sketchRead i s k w = [])
    ∧ (k ≤ s.length → s.length < k + w - 1 →
        numWindows s k w = 1 ∧ sketchRead i s k w ≠ []) := by
  constructor
  · intro hshort
    have h0 : numKmers s k = 0 := by
      unfold numKmers
      omega
    have hW : numWindows s k w = 0 := by
      simp [numWindows, h0]
    simp [sketchRead, sketchPositions, hW]
  · intro hge hlt
    have h1 : 1 ≤ numKmers s k := by
      unfold numKmers
      omega
    have h2 : numKmers s k < w := by
      unfold numKmers at h1 ⊢
      omega
    have hW : numWindows s k w = 1 := by
      unfold numWindows
      rw [if_neg (by omega)]
      omega
    refine ⟨hW, ?_⟩
    have hne : windowPositions s k w 0 ≠ [] := by
      have hlen : (windowPositions s k w 0).length = min w (numKmers s k - 0) := by
        simp [windowPositions]
      refine List.length_pos.mp ?_
      rw [hlen]
      omega
    obtain ⟨p, hp, hmin⟩ := list_exists_min (repAt s k) (windowPositions s k w 0) hne
    exact List.ne_nil_of_mem
      (winner_mem_sketchRead i s k w 0 p (by omega) hp hmin)

/-- Concrete instance of `sketcher_edge_cases`: a length-1 read with k = 4
gives no sketch elements; a length-5 read with k = 4, w = 3 has one window
and a nonempty sketch. -/
theorem sketcher_edge_cases_witness :
    sketchRead 0 [Base.A] 4 2 = []
    ∧ (numWindows [Base.A, Base.C, Base.G, Base.T, Base.A] 4 3 = 1
        ∧ sketchRead 0 [Base.A, Base.C, Base.G, Base.T, Base.A] 4 3 ≠ []) :=
  ⟨(sketcher_edge_cases 0 [Base.A] 4 2 (by decide) (by decide)).1 (by decide),
   (sketcher_edge_cases 0 [Base.A, Base.C, Base.G, Base.T, Base.A] 4 3
      (by decide) (by decide)).2 (by decide) (by decide)⟩

/-! ### Construction-level properties -/

/-- C6: `create_index` fails synchronously with invalid-configuration,
producing no index, whenever kmer_size is outside [1, maximum_kmer_size()]
or a range is out of bounds, and `maximum_kmer_size()` is the
representation bit-width divided by two. -/
theorem create_index_rejects_invalid (sources : List (List ReadInput))
    (kmer_size window_size : Nat) (ranges : List (Nat × Nat))
    (h : kmer_size < 1 ∨ maximum_kmer_size < kmer_size ∨
      rangeOutOfBounds sources ranges = true) :
    create_index sources kmer_size window_size ranges
      = Except.error IndexError.invalid_configuration
    ∧ maximum_kmer_size = representation_bits / 2 := by
  constructor
  · unfold create_index
    rw [if_pos]
    rcases h with h | h | h
    · exact Or.inl h
    · exact Or.inr (Or.inl h)
    · exact Or.inr (Or.inr (Or.inr h))
  · rfl

/-- Concrete instance of `create_index_rejects_invalid`:
kmer_size = maximum_kmer_size() + 1 is rejected. -/
theorem create_index_rejects_invalid_witness :
    create_index [] (maximum_kmer_size + 1) 1 []
      = Except.error IndexError.invalid_configuration
    ∧ maximum_kmer_size = representation_bits / 2 :=
  create_index_rejects_invalid [] (maximum_kmer_size + 1) 1 []
    (Or.inr (Or.inl (by decide)))

/-- C8: index construction is deterministic — identical sources, kmer size,
window size and ranges give identical results, in particular equal global
arrays and equal nested lookup structures. -/
theorem create_index_deterministic (s1 s2 : List (List ReadInput))
    (k1 k2 w1 w2 : Nat) (r1 r2 : List (Nat × Nat))
    (h : s1 = s2 ∧ k1 = k2 ∧ w1 = w2 ∧ r1 = r2) :
    create_index s1 k1 w1 r1 = create_index s2 k2 w2 r2
    ∧ (buildIndex s1 k1 w1 r1).positions_in_reads
        = (buildIndex s2 k2 w2 r2).positions_in_reads
    ∧ (buildIndex s1 k1 w1 r1).read_ids = (buildIndex s2 k2 w2 r2).read_ids
    ∧ (buildIndex s1 k1 w1 r1).directions_of_reads
        = (buildIndex s2 k2 w2 r2).directions_of_reads
    ∧ (buildIndex s1 k1 w1 r1).read_id_and_representation_to_sketch_elements
        = (buildIndex s2 k2 w2 r2).read_id_and_representation_to_sketch_elements := by
  obtain ⟨hs, hk, hw, hr⟩ := h
  subst hs
  subst hk
  subst hw
  subst hr
  exact ⟨rfl, rfl, rfl, rfl, rfl⟩

/-- Concrete instance of `create_index_deterministic` on a one-read input. -/
theorem create_index_deterministic_witness :
    create_index [[{ name := "r", seq := [Base.A, Base.C] }]] 2 1 [(0, 1)]
      = create_index [[{ name := "r", seq := [Base.A, Base.C] }]] 2 1 [(0, 1)]
    ∧ (buildIndex [[{ name := "r", seq := [Base.A, Base.C] }]] 2 1
        [(0, 1)]).positions_in_reads
      = (buildIndex [[{ name := "r", seq := [Base.A, Base.C] }]] 2 1
          [(0, 1)]).positions_in_reads
    ∧ (buildIndex [[{ name := "r", seq := [Base.A, Base.C] }]] 2 1
        [(0, 1)]).read_ids
      = (buildIndex [[{ name := "r", seq := [Base.A, Base.C] }]] 2 1
          [(0, 1)]).read_ids
    ∧ (buildIndex [[{ name := "r", seq := [Base.A, Base.C] }]] 2 1
        [(0, 1)]).directions_of_reads
      = (buildIndex [[{ name := "r", seq := [Base.A, Base.C] }]] 2 1
          [(0, 1)]).directions_of_reads
    ∧ (buildIndex [[{ name := "r", seq := [Base.A, Base.C] }]] 2 1
        [(0, 1)]).read_id_and_representation_to_sketch_elements
      = (buildIndex [[{ name := "r", seq := [Base.A, Base.C] }]] 2 1
          [(0, 1)]).read_id_and_representation_to_sketch_elements :=
  create_index_deterministic _ _ 2 2 1 1 _ _ ⟨rfl, rfl, rfl, rfl⟩

/-- C10: the read-name table, the read-length table and the outer vector of
the nested lookup are all indexed by internal read id and have exactly
`number_of_reads()` entries. -/
theorem index_read_tables_sized (sources : List (List ReadInput)) (k w : Nat)
    (ranges : List (Nat × Nat)) :
    (buildIndex sources k w ranges).read_id_to_read_name.length
        = (buildIndex sources k w ranges).number_of_reads
    ∧ (buildIndex sources k w ranges).read_id_to_read_length.length
        = (buildIndex sources k w ranges).number_of_reads
    ∧ (buildIndex sources k w
          ranges).read_id_and_representation_to_sketch_elements.length
        = (buildIndex sources k w ranges).number_of_reads := by
  refine ⟨?_, ?_, ?_⟩ <;>
    simp [buildIndex, indexLookup, perReadSketches, List.enum_length]

theorem selectedReads_eq_nil (sources : List (List ReadInput))
    (ranges : List (Nat × Nat)) (he : ∀ p ∈ ranges, p.1 = p.2) :
    selectedReads sources ranges = [] := by
  apply List.eq_nil_iff_forall_not_mem.mpr
  intro x hx
  rw [selectedReads, List.mem_flatMap] at hx
  obtain ⟨p, hpz, hxp⟩ := hx
  have hr : p.2.1 = p.2.2 := he _ (List.of_mem_zip hpz).2
  rw [hr] at hxp
  simp at hxp

/-- C7: the zero-argument `create_index()` is an empty structurally valid
index (zero reads, empty arrays, sentinel bounds), and the building
`create_index` under a valid configuration whose ranges are all empty
succeeds and yields an index whose observable structure equals that empty
index. -/
theorem create_index_empty_equivalence (sources : List (List ReadInput))
    (k w : Nat) (ranges : List (Nat × Nat))
    (hk1 : 1 ≤ k) (hk2 : k ≤ maximum_kmer_size) (hw : 1 ≤ w)
    (hb : rangeOutOfBounds sources ranges = false)
    (he : ∀ p ∈ ranges, p.1 = p.2) :
    (create_index_empty.number_of_reads = 0
      ∧ create_index_empty.positions_in_reads = []
      ∧ create_index_empty.read_ids = []
      ∧ create_index_empty.directions_of_reads = []
      ∧ create_index_empty.minimum_representation
          = sentinel_minimum_representation
      ∧ create_index_empty.maximum_representation
          = sentinel_maximum_representation)
    ∧ create_index sources k w ranges
        = Except.ok (buildIndex sources k w ranges)
    ∧ (buildIndex sources k w ranges).number_of_reads
        = create_index_empty.number_of_reads
    ∧ (buildIndex sources k w ranges).positions_in_reads
        = create_index_empty.positions_in_reads
    ∧ (buildIndex sources k w ranges).read_ids = create_index_empty.read_ids
    ∧ (buildIndex sources k w ranges).directions_of_reads
        = create_index_empty.directions_of_reads
    ∧ (buildIndex sources k w ranges).read_id_to_read_name
        = create_index_empty.read_id_to_read_name
    ∧ (buildIndex sources k w ranges).read_id_to_read_length
        = create_index_empty.read_id_to_read_length
    ∧ (buildIndex sources k w ranges).minimum_representation
        = create_index_empty.minimum_representation
    ∧ (buildIndex sources k w ranges).maximum_representation
        = create_index_empty.maximum_representation
    ∧ (buildIndex sources k w
          ranges).read_id_and_representation_to_sketch_elements
        = create_index_empty.read_id_and_representation_to_sketch_elements := by
  have hsel : selectedReads sources ranges = [] :=
    selectedReads_eq_nil sources ranges he
  have hper : perReadSketches sources k w ranges = [] := by
    simp [perReadSketches, hsel]
  have helems : indexElements sources k w ranges = [] := by
    simp [indexElements, hper]
  have hreps : indexRepresentations sources k w ranges = [] := by
    simp [indexRepresentations, helems]
  have hsorted : indexSortedElements sources k w ranges = [] := by
    rw [indexSortedElements, hreps]
    rfl
  have hlook : indexLookup sources k w ranges = [] := by
    simp [indexLookup, hper]
  have hcond : ¬(k < 1 ∨ maximum_kmer_size < k ∨ w < 1 ∨
      rangeOutOfBounds sources ranges = true) := by
    simp only [hb]
    simp only [Bool.false_eq_true, or_false]
    omega
  refine ⟨⟨rfl, rfl, rfl, rfl, rfl, rfl⟩, ?_, ?_, ?_, ?_, ?_, ?_, ?_, ?_, ?_, ?_⟩
  · unfold create_index
    rw [if_neg hcond]
  · simp [buildIndex, create_index_empty, hsel]
  · simp [buildIndex, create_index_empty, hsorted]
  · simp [buildIndex, create_index_empty, hsorted]
  · simp [buildIndex, create_index_empty, hsorted]
  · simp [buildIndex, create_index_empty, hsel]
  · simp [buildIndex, create_index_empty, hsel]
  · rw [buildIndex, hreps]
    rfl
  · rw [buildIndex, hreps]
    rfl
  · simp [buildIndex, create_index_empty, hlook]

/-- Concrete instance of `create_index_empty_equivalence`: one source of
one read with the empty range (0, 0). -/
theorem create_index_empty_equivalence_witness :
    create_index [[{ name := "a", seq := [Base.A] }]] 2 1 [(0, 0)]
      = Except.ok (buildIndex [[{ name := "a", seq := [Base.A] }]] 2 1
          [(0, 0)])
    ∧ (buildIndex [[{ name := "a", seq := [Base.A] }]] 2 1
        [(0, 0)]).number_of_reads = create_index_empty.number_of_reads
    ∧ (buildIndex [[{ name := "a", seq := [Base.A] }]] 2 1
        [(0, 0)]).positions_in_reads = create_index_empty.positions_in_reads :=
  ⟨(create_index_empty_equivalence [[{ name := "a", seq := [Base.A] }]] 2 1
      [(0, 0)] (by decide) (by decide) (by decide) (by decide)
      (by decide)).2.1,
   (create_index_empty_equivalence [[{ name := "a", seq := [Base.A] }]] 2 1
      [(0, 0)] (by decide) (by decide) (by decide) (by decide)
      (by decide)).2.2.1,
   (create_index_empty_equivalence [[{ name := "a", seq := [Base.A] }]] 2 1
      [(0, 0)] (by decide) (by decide) (by decide) (by decide)
      (by decide)).2.2.2.1⟩

/-! ### Structure of the globally sorted array and the lookup table -/

theorem snd_mem_of_mem_enum {α : Type} {p : Nat × α} {l : List α}
    (h : p ∈ l.enum) : p.2 ∈ l := by
  obtain ⟨i, a⟩ := p
  obtain ⟨hlt, ha⟩ := List.mem_enum h
  exact ha ▸ List.getElem_mem hlt

theorem pairwise_flatMap_filter {α : Type} (key : α → Nat) (rs : List Nat)
    (l : List α) (hs : rs.Pairwise (· ≤ ·)) :
    (rs.flatMap (fun r => l.filter (fun e => decide (key e = r)))).Pairwise
      (fun a b => key a ≤ key b) := by
  induction rs with
  | nil => simp
  | cons r rs' ih =>
    rw [List.flatMap_cons, List.pairwise_append]
    refine ⟨?_, ih (List.pairwise_cons.mp hs).2, ?_⟩
    · apply List.pairwise_of_forall_mem_list
      intro a ha b hb
      have hka : key a = r := of_decide_eq_true (List.mem_filter.mp ha).2
      have hkb : key b = r := of_decide_eq_true (List.mem_filter.mp hb).2
      rw [hka, hkb]
    · intro a ha b hb
      have hka : key a = r := of_decide_eq_true (List.mem_filter.mp ha).2
      rw [List.mem_flatMap] at hb
      obtain ⟨r', hr', hbf⟩ := hb
      have hkb : key b = r' := of_decide_eq_true (List.mem_filter.mp hbf).2
      rw [hka, hkb]
      exact (List.pairwise_cons.mp hs).1 r' hr'

theorem sorted_take_countP_eq_filter {α : Type} (key : α → Nat) :
    ∀ (t : List α) (r : Nat), t.Pairwise (fun a b => key a ≤ key b) →
    (∀ b ∈ t, r ≤ key b) →
    t.take (t.countP (fun e => decide (key e = r)))
      = t.filter (fun e => decide (key e = r)) := by
  intro t
  induction t with
  | nil =>
    intro r _ _
    rfl
  | cons b t' ih =>
    intro r hp hge
    have hhead := (List.pairwise_cons.mp hp).1
    have hp' := (List.pairwise_cons.mp hp).2
    by_cases hb : key b = r
    · rw [List.countP_cons_of_pos _ _ (by simp [hb]),
        List.filter_cons_of_pos (by simp [hb]), List.take_succ_cons,
        ih r hp' (fun x hx => hge x (List.mem_cons_of_mem _ hx))]
    · have hzero : (b :: t').countP (fun e => decide (key e = r)) = 0 := by
        rw [List.countP_eq_zero]
        intro a ha
        rcases List.mem_cons.mp ha with rfl | ha'
        · simp [hb]
        · have h1 : key b ≤ key a := hhead a ha'
          have h2 : r ≤ key b := hge b (by simp)
          simp only [decide_eq_true_eq]
          omega
      rw [hzero, List.take_zero]
      symm
      rw [List.filter_eq_nil_iff]
      intro a ha
      rcases List.mem_cons.mp ha with rfl | ha'
      · simp [hb]
      · have h1 : key b ≤ key a := hhead a ha'
        have h2 : r ≤ key b := hge b (by simp)
        simp only [decide_eq_true_eq]
        omega

theorem sorted_block_eq_filter {α : Type} (key : α → Nat) :
    ∀ (L : List α) (r : Nat), L.Pairwise (fun a b => key a ≤ key b) →
    (L.drop (L.countP (fun e => decide (key e < r)))).take
        (L.countP (fun e => decide (key e = r)))
      = L.filter (fun e => decide (key e = r)) := by
  intro L
  induction L with
  | nil =>
    intro r _
    rfl
  | cons a t ih =>
    intro r hp
    have hhead := (List.pairwise_cons.mp hp).1
    have hp' := (List.pairwise_cons.mp hp).2
    rcases lt_trichotomy (key a) r with hlt | heq | hgt
    · have hc1 : (a :: t).countP (fun e => decide (key e < r))
          = t.countP (fun e => decide (key e < r)) + 1 :=
        List.countP_cons_of_pos _ _ (by simp [hlt])
      have hc2 : (a :: t).countP (fun e => decide (key e = r))
          = t.countP (fun e => decide (key e = r)) :=
        List.countP_cons_of_neg _ _ (by simp only [decide_eq_true_eq]; omega)
      have hf : (a :: t).filter (fun e => decide (key e = r))
          = t.filter (fun e => decide (key e = r)) :=
        List.filter_cons_of_neg (by simp only [decide_eq_true_eq]; omega)
      rw [hc1, hc2, hf, List.drop_succ_cons]
      exact ih r hp'
    · have hc1 : (a :: t).countP (fun e => decide (key e < r)) = 0 := by
        rw [List.countP_eq_zero]
        intro b hb
        rcases List.mem_cons.mp hb with rfl | hb'
        · simp only [decide_eq_true_eq]
          omega
        · have := hhead b hb'
          simp only [decide_eq_true_eq]
          omega
      have hc2 : (a :: t).countP (fun e => decide (key e = r))
          = t.countP (fun e => decide (key e = r)) + 1 :=
        List.countP_cons_of_pos _ _ (by simp [heq])
      have hf : (a :: t).filter (fun e => decide (key e = r))
          = a :: t.filter (fun e => decide (key e = r)) :=
        List.filter_cons_of_pos (by simp [heq])
      rw [hc1, hc2, hf, List.drop_zero, List.take_succ_cons]
      congr 1
      exact sorted_take_countP_eq_filter key t r hp'
        (fun b hb => by have := hhead b hb; omega)
    · have hzlt : (a :: t).countP (fun e => decide (key e < r)) = 0 := by
        rw [List.countP_eq_zero]
        intro b hb
        rcases List.mem_cons.mp hb with rfl | hb'
        · simp only [decide_eq_true_eq]
          omega
        · have := hhead b hb'
          simp only [decide_eq_true_eq]
          omega
      have hzeq : (a :: t).countP (fun e => decide (key e = r)) = 0 := by
        rw [List.countP_eq_zero]
        intro b hb
        rcases List.mem_cons.mp hb with rfl | hb'
        · simp only [decide_eq_true_eq]
          omega
        · have := hhead b hb'
          simp only [decide_eq_true_eq]
          omega
      rw [hzlt, hzeq, List.drop_zero, List.take_zero]
      symm
      rw [List.filter_eq_nil_iff]
      intro b hb
      rcases List.mem_cons.mp hb with rfl | hb'
      · simp only [decide_eq_true_eq]
        omega
      · have := hhead b hb'
        simp only [decide_eq_true_eq]
        omega

theorem flatMap_filter_avoid {α : Type} (key : α → Nat) (l : List α) (r : Nat) :
    ∀ (rs' : List Nat), r ∉ rs' →
    rs'.flatMap (fun u => l.filter (fun e => decide (key e = u)))
      = rs'.flatMap (fun u =>
          (l.filter (fun e => !decide (key e = r))).filter
            (fun e => decide (key e = u))) := by
  intro rs'
  induction rs' with
  | nil =>
    intro _
    rfl
  | cons u t ih =>
    intro hnotin
    have hne : u ≠ r := by
      intro hh
      exact hnotin (by simp [hh])
    rw [List.flatMap_cons, List.flatMap_cons,
      ih (fun hh => hnotin (List.mem_cons_of_mem _ hh))]
    congr 1
    rw [List.filter_filter]
    apply List.filter_congr
    intro x _
    by_cases hx : key x = u
    · simp [hx, hne]
    · simp [hx]

theorem flatMap_filter_perm {α : Type} (key : α → Nat) :
    ∀ (rs : List Nat) (l : List α), rs.Nodup →
    (∀ e ∈ l, key e ∈ rs) →
    (rs.flatMap (fun r => l.filter (fun e => decide (key e = r)))).Perm l := by
  intro rs
  induction rs with
  | nil =>
    intro l _ hcov
    have hl : l = [] := by
      cases l with
      | nil => rfl
      | cons a t => exact absurd (hcov a (by simp)) (List.not_mem_nil _)
    simp [hl]
  | cons r rs' ih =>
    intro l hnd hcov
    have hr : r ∉ rs' := (List.nodup_cons.mp hnd).1
    have hnd' : rs'.Nodup := (List.nodup_cons.mp hnd).2
    rw [List.flatMap_cons, flatMap_filter_avoid key l r rs' hr]
    have hcov' : ∀ e ∈ l.filter (fun e => !decide (key e = r)), key e ∈ rs' := by
      intro e he
      have hme := List.mem_filter.mp he
      have hner : key e ≠ r := by
        have := hme.2
        simpa using this
      rcases List.mem_cons.mp (hcov e hme.1) with hh | hh
      · exact absurd hh hner
      · exact hh
    have hperm := ih (l.filter (fun e => !decide (key e = r))) hnd' hcov'
    exact ((hperm.append_left _).trans (List.filter_append_perm _ l))

theorem sortedRepList_nodup (reps : List Nat) : (sortedRepList reps).Nodup :=
  ((List.perm_insertionSort _ _).nodup_iff).mpr (List.nodup_dedup _)

theorem mem_sortedRepList {r : Nat} {reps : List Nat} :
    r ∈ sortedRepList reps ↔ r ∈ reps := by
  rw [sortedRepList, (List.perm_insertionSort _ _).mem_iff, List.mem_dedup]

theorem sortedRepList_sorted (reps : List Nat) :
    (sortedRepList reps).Pairwise (· ≤ ·) :=
  List.sorted_insertionSort _ _

theorem indexSortedElements_sorted (sources : List (List ReadInput))
    (k w : Nat) (ranges : List (Nat × Nat)) :
    (indexSortedElements sources k w ranges).Pairwise
      (fun a b => a.representation_ ≤ b.representation_) := by
  rw [indexSortedElements]
  exact pairwise_flatMap_filter _ _ _ (sortedRepList_sorted _)

theorem indexSortedElements_perm (sources : List (List ReadInput))
    (k w : Nat) (ranges : List (Nat × Nat)) :
    (indexSortedElements sources k w ranges).Perm
      (indexElements sources k w ranges) := by
  rw [indexSortedElements]
  apply flatMap_filter_perm
  · exact sortedRepList_nodup _
  · intro e he
    rw [mem_sortedRepList, indexRepresentations]
    exact List.mem_map.mpr ⟨e, he, rfl⟩

theorem mem_readLookup {L : List SketchElement} {i : Nat}
    {l : List SketchElement} {e : RepresentationToSketchElements}
    (he : e ∈ readLookup L i l) :
    e.sketch_elements_for_representation_and_all_read_ids_
        = allReadsBlock L e.representation_
    ∧ e.representation_ ∈ l.map (·.representation_)
    ∧ e.sketch_elements_for_representation_and_read_id_
        = perReadBlock L l i e.representation_ := by
  rw [readLookup] at he
  obtain ⟨r, hr, hre⟩ := List.mem_map.mp he
  cases hre
  exact ⟨rfl, mem_sortedRepList.mp hr, rfl⟩

theorem mem_indexLookup {sources : List (List ReadInput)} {k w : Nat}
    {ranges : List (Nat × Nat)} {li : List RepresentationToSketchElements}
    (h : li ∈ indexLookup sources k w ranges) :
    ∃ p ∈ (perReadSketches sources k w ranges).enum,
      li = readLookup (indexSortedElements sources k w ranges) p.1 p.2 := by
  rw [indexLookup] at h
  obtain ⟨p, hp, hpe⟩ := List.mem_map.mp h
  exact ⟨p, hp, hpe.symm⟩

/-- C1: the "all reads" `ArrayBlock` stored for a representation r is the
same block no matter which read's lookup entry retrieves it, and the slice
of the globally sorted array it describes is exactly the list of all sketch
elements with representation r — index-wide complete. -/
theorem index_all_reads_block_unique_and_complete
    (sources : List (List ReadInput)) (k w : Nat)
    (ranges : List (Nat × Nat)) :
    (∀ li1 ∈ indexLookup sources k w ranges,
      ∀ li2 ∈ indexLookup sources k w ranges,
      ∀ e1 ∈ li1, ∀ e2 ∈ li2,
      e1.representation_ = e2.representation_ →
        e1.sketch_elements_for_representation_and_all_read_ids_
          = e2.sketch_elements_for_representation_and_all_read_ids_)
    ∧ (∀ li ∈ indexLookup sources k w ranges, ∀ e ∈ li,
        ((indexSortedElements sources k w ranges).drop
            e.sketch_elements_for_representation_and_all_read_ids_.first_element_).take
            e.sketch_elements_for_representation_and_all_read_ids_.block_size_
          = (indexSortedElements sources k w ranges).filter
              (fun x => decide (x.representation_ = e.representation_))
        ∧ ((indexSortedElements sources k w ranges).filter
              (fun x => decide (x.representation_ = e.representation_))).Perm
            ((indexElements sources k w ranges).filter
              (fun x => decide (x.representation_ = e.representation_)))) := by
  constructor
  · intro li1 h1 li2 h2 e1 he1 e2 he2 hrep
    obtain ⟨p1, hp1, rfl⟩ := mem_indexLookup h1
    obtain ⟨p2, hp2, rfl⟩ := mem_indexLookup h2
    rw [(mem_readLookup he1).1, (mem_readLookup he2).1, hrep]
  · intro li hli e he
    obtain ⟨p, hp, rfl⟩ := mem_indexLookup hli
    rw [(mem_readLookup he).1]
    constructor
    · simp only [allReadsBlock]
      exact sorted_block_eq_filter (fun e : SketchElement => e.representation_)
        _ _ (indexSortedElements_sorted sources k w ranges)
    · exact (indexSortedElements_perm sources k w ranges).filter _

/-- Concrete instance of `index_all_reads_block_unique_and_complete` on a
one-read index: the all-reads block of representation 1 covers exactly the
elements with representation 1. -/
theorem index_all_reads_block_witness :
    ((indexSortedElements [[{ name := "r", seq := [Base.A, Base.C] }]] 2 1
        [(0, 1)]).drop 0).take 1
      = (indexSortedElements [[{ name := "r", seq := [Base.A, Base.C] }]] 2 1
          [(0, 1)]).filter (fun x => decide (x.representation_ = 1))
    ∧ ((indexSortedElements [[{ name := "r", seq := [Base.A, Base.C] }]] 2 1
          [(0, 1)]).filter (fun x => decide (x.representation_ = 1))).Perm
        ((indexElements [[{ name := "r", seq := [Base.A, Base.C] }]] 2 1
          [(0, 1)]).filter (fun x => decide (x.representation_ = 1))) :=
  (index_all_reads_block_unique_and_complete
      [[{ name := "r", seq := [Base.A, Base.C] }]] 2 1 [(0, 1)]).2
    [{ representation_ := 1
       sketch_elements_for_representation_and_read_id_ :=
         { first_element_ := 0, block_size_ := 1 }
       sketch_elements_for_representation_and_all_read_ids_ :=
         { first_element_ := 0, block_size_ := 1 } }] (by decide)
    { representation_ := 1
      sketch_elements_for_representation_and_read_id_ :=
        { first_element_ := 0, block_size_ := 1 }
      sketch_elements_for_representation_and_all_read_ids_ :=
        { first_element_ := 0, block_size_ := 1 } } (by decide)

theorem sum_countP_sortedRepList (l : List SketchElement) :
    ((sortedRepList (l.map (·.representation_))).map
      (fun r => l.countP (fun e => decide (e.representation_ = r)))).sum
    = l.length := by
  have hperm := (List.perm_insertionSort (α := Nat) (· ≤ ·)
      (l.map (·.representation_)).dedup).map
      (fun r => l.countP (fun e => decide (e.representation_ = r)))
  rw [sortedRepList, hperm.sum_eq]
  have hcnt : ∀ r ∈ (l.map (·.representation_)).dedup,
      l.countP (fun e => decide (e.representation_ = r))
        = List.count r (l.map (·.representation_)) := by
    intro r _
    rw [List.count_eq_countP, List.countP_map]
    apply List.countP_congr
    intro e _
    by_cases h : e.representation_ = r
    · simp [Function.comp, h]
    · simp [Function.comp, h]
  rw [List.map_congr_left hcnt,
    List.sum_map_count_dedup_eq_length (l.map (·.representation_)),
    List.length_map]

/-- C5: the three global parallel arrays have equal length, that length is
the total number of sketch elements, and the per-read `ArrayBlock` counts
summed over all read ids give that same length. -/
theorem index_parallel_arrays_consistent (sources : List (List ReadInput))
    (k w : Nat) (ranges : List (Nat × Nat)) :
    (buildIndex sources k w ranges).positions_in_reads.length
        = (buildIndex sources k w ranges).read_ids.length
    ∧ (buildIndex sources k w ranges).read_ids.length
        = (buildIndex sources k w ranges).directions_of_reads.length
    ∧ (buildIndex sources k w ranges).positions_in_reads.length
        = (indexElements sources k w ranges).length
    ∧ (((buildIndex sources k w
          ranges).read_id_and_representation_to_sketch_elements).map
        (fun li => (li.map (fun e =>
          e.sketch_elements_for_representation_and_read_id_.block_size_)).sum)).sum
        = (buildIndex sources k w ranges).positions_in_reads.length := by
  have hlen : (buildIndex sources k w ranges).positions_in_reads.length
      = (indexElements sources k w ranges).length := by
    simp only [buildIndex, List.length_map]
    exact (indexSortedElements_perm sources k w ranges).length_eq
  refine ⟨?_, ?_, hlen, ?_⟩
  · simp [buildIndex]
  · simp [buildIndex]
  · rw [hlen]
    have hread : ∀ (q : Nat × List SketchElement),
        ((readLookup (indexSortedElements sources k w ranges) q.1 q.2).map
          (fun e =>
            e.sketch_elements_for_representation_and_read_id_.block_size_)).sum
        = q.2.length := by
      intro q
      rw [readLookup, List.map_map]
      exact sum_countP_sortedRepList q.2
    show ((indexLookup sources k w ranges).map
        (fun li => (li.map (fun e =>
          e.sketch_elements_for_representation_and_read_id_.block_size_)).sum)).sum
      = (indexElements sources k w ranges).length
    rw [indexLookup, List.map_map]
    have hfun : ((fun li : List RepresentationToSketchElements =>
          (li.map (fun e =>
            e.sketch_elements_for_representation_and_read_id_.block_size_)).sum)
          ∘ (fun p : Nat × List SketchElement =>
            readLookup (indexSortedElements sources k w ranges) p.1 p.2))
        = fun q : Nat × List SketchElement => q.2.length := by
      funext q
      exact hread q
    rw [hfun]
    have hsnd : (fun q : Nat × List SketchElement => q.2.length)
        = List.length ∘ Prod.snd := rfl
    rw [hsnd, ← List.map_map, List.enum_map_snd, indexElements,
      List.length_flatten]

theorem sorted_headD_le {l : List Nat} {r : Nat} (hs : l.Pairwise (· ≤ ·))
    (hr : r ∈ l) (d : Nat) : l.headD d ≤ r := by
  cases l with
  | nil => exact absurd hr (List.not_mem_nil _)
  | cons a t =>
    rcases List.mem_cons.mp hr with rfl | hr'
    · exact le_refl _
    · exact (List.pairwise_cons.mp hs).1 r hr'

theorem sorted_le_getLastD :
    ∀ (l : List Nat) (d : Nat), l.Pairwise (· ≤ ·) →
    ∀ x ∈ l, x ≤ l.getLastD d := by
  intro l
  induction l with
  | nil =>
    intro d _ x hx
    exact absurd hx (List.not_mem_nil _)
  | cons a t ih =>
    intro d hs x hx
    rw [List.getLastD_cons]
    have hhead := (List.pairwise_cons.mp hs).1
    have hs' := (List.pairwise_cons.mp hs).2
    rcases List.mem_cons.mp hx with rfl | hx'
    · cases t with
      | nil => simp [List.getLastD_nil]
      | cons b t' =>
        exact le_trans (hhead b (by simp)) (ih x hs' b (by simp))
    · exact ih a hs' x hx'

theorem lookup_rep_mem_global {sources : List (List ReadInput)} {k w : Nat}
    {ranges : List (Nat × Nat)} {li : List RepresentationToSketchElements}
    {e : RepresentationToSketchElements}
    (hli : li ∈ indexLookup sources k w ranges) (he : e ∈ li) :
    e.representation_ ∈ sortedRepList (indexRepresentations sources k w ranges) := by
  obtain ⟨p, hp, rfl⟩ := mem_indexLookup hli
  have hrep := (mem_readLookup he).2.1
  rw [mem_sortedRepList, indexRepresentations]
  obtain ⟨x, hx, hxe⟩ := List.mem_map.mp hrep
  have hx2 : x ∈ indexElements sources k w ranges := by
    rw [indexElements]
    exact List.mem_flatten.mpr ⟨p.2, snd_mem_of_mem_enum hp, hx⟩
  exact List.mem_map.mpr ⟨x, hx2, hxe⟩

/-- C9: every representation observed in a built index lies between
`minimum_representation()` and `maximum_representation()`, and the empty
index reports the documented sentinel bounds. -/
theorem index_representation_bounds (sources : List (List ReadInput))
    (k w : Nat) (ranges : List (Nat × Nat)) :
    (∀ li ∈ indexLookup sources k w ranges, ∀ e ∈ li,
      (buildIndex sources k w ranges).minimum_representation
          ≤ e.representation_
      ∧ e.representation_
          ≤ (buildIndex sources k w ranges).maximum_representation)
    ∧ create_index_empty.minimum_representation
        = sentinel_minimum_representation
    ∧ create_index_empty.maximum_representation
        = sentinel_maximum_representation := by
  refine ⟨?_, rfl, rfl⟩
  intro li hli e he
  have hmem := lookup_rep_mem_global hli he
  have hsorted := sortedRepList_sorted (indexRepresentations sources k w ranges)
  constructor
  · exact sorted_headD_le hsorted hmem _
  · exact sorted_le_getLastD _ _ hsorted _ hmem

/-- Concrete instance of `index_representation_bounds` on a one-read
index whose only observed representation is 1. -/
theorem index_representation_bounds_witness :
    (buildIndex [[{ name := "r", seq := [Base.A, Base.C] }]] 2 1
        [(0, 1)]).minimum_representation ≤ 1
    ∧ (1 : Nat) ≤ (buildIndex [[{ name := "r", seq := [Base.A, Base.C] }]] 2 1
        [(0, 1)]).maximum_representation :=
  (index_representation_bounds [[{ name := "r", seq := [Base.A, Base.C] }]]
      2 1 [(0, 1)]).1
    [{ representation_ := 1
       sketch_elements_for_representation_and_read_id_ :=
         { first_element_ := 0, block_size_ := 1 }
       sketch_elements_for_representation_and_all_read_ids_ :=
         { first_element_ := 0, block_size_ := 1 } }] (by decide)
    { representation_ := 1
      sketch_elements_for_representation_and_read_id_ :=
        { first_element_ := 0, block_size_ := 1 }
      sketch_elements_for_representation_and_all_read_ids_ :=
        { first_element_ := 0, block_size_ := 1 } } (by decide)

end ClaraGenomics
